import Mathlib

/-!
Matrix/Discord bridge: the relay engine.

A shallow embedding of `main.go`: the on-disk sync store (`DiskSyncStore`), the
channel mapper (`keyByValue`), the two message translators (`renderDiscord`,
`renderMatrix`) and the three event handlers (`matrixInvite`, `matrixMessage`,
`discordMessage`).

The strings of events and settings come out of JSON decoding, are valid UTF-8 and are
modelled by `String`; the strings of the sync store are read back from a file and are
modelled by their bytes (`GoString`).  A Go `map[string]string` is the list of its entries
in iteration order (distinct keys).  The file `data/syncstore` is a list of bytes, an open
handle adds the read/write offset.  Pointers the handlers dereference (`e.Author`,
`state.D.State.User`) are taken to be set.
-/

namespace Bridge

/-! ## Bytes and stored strings -/

/-- File content: a sequence of bytes, each a natural number below 256. -/
abbrev Bytes := List Nat

/-- UTF-8 encoding of one character (the bytes of a Go string holding it). -/
def utf8EncodeChar (c : Char) : Bytes :=
  let n := c.toNat
  if n < 0x80 then [n]
  else if n < 0x800 then [0xC0 + n / 64, 0x80 + n % 64]
  else if n < 0x10000 then [0xE0 + n / 4096, 0x80 + n / 64 % 64, 0x80 + n % 64]
  else [0xF0 + n / 262144, 0x80 + n / 4096 % 64, 0x80 + n / 64 % 64, 0x80 + n % 64]

/-- The bytes of a Go string written as text. -/
def utf8Encode (s : String) : Bytes :=
  (s.data.map utf8EncodeChar).flatten

/-- A Go string as the store handles it: any sequence of bytes, UTF-8 or not.  The decoder
hands back the bytes of the file unchecked, and Go compares strings byte by byte. -/
structure GoString where
  bytes : Bytes
  deriving DecidableEq, Repr

/-- A text literal stands for the Go string of its UTF-8 bytes. -/
instance : Coe String GoString := ⟨fun s => { bytes := utf8Encode s }⟩

/-! ## The msgpack record of the sync store

`msgpack.MarshalWrite` and `msgpack.UnmarshalRead` belong to an external library; the model
follows the msgpack wire format and the library's decoding of a struct from a map keyed by
field name: entries are read in the order of the file, a key that names a field decodes its
value into the field, any other key has its value skipped.  The reader consumes exactly the
bytes of the record it decodes. -/

/-- Go `map[id.UserID]string`: `none` is the nil map, `some es` holds the entries. -/
abbrev GoMap := Option (List (GoString × GoString))

/-- Go `m[k]` as an rvalue: the zero value `""` when the key is absent or the map is nil. -/
def GoMap.get (m : GoMap) (k : GoString) : GoString :=
  match m with
  | none => { bytes := [] }
  | some es => (es.lookup k).getD { bytes := [] }

/-- Go `m[k] = v` on a non-nil map: overwrite the entry of `k` or add one. -/
def setEntry :
    List (GoString × GoString) → GoString → GoString → List (GoString × GoString)
  | [], k, v => [(k, v)]
  | (k', v') :: es, k, v => if k' = k then (k', v) :: es else (k', v') :: setEntry es k v

/-- The persisted record, `type DiskSync struct`. -/
structure DiskSync where
  Filters : GoMap := none
  NextBatch : GoMap := none
  deriving DecidableEq, Repr

/-- Big-endian bytes of `n`, `k` of them. -/
def beBytes : Nat → Nat → Bytes
  | 0, _ => []
  | k + 1, n => n / 256 ^ k % 256 :: beBytes k n

/-- Header of a msgpack string of `n` bytes: fixstr, str 8, str 16 or str 32. -/
def strHeader (n : Nat) : Bytes :=
  if n < 32 then [0xa0 + n]
  else if n ≤ 0xff then 0xd9 :: beBytes 1 n
  else if n ≤ 0xffff then 0xda :: beBytes 2 n
  else 0xdb :: beBytes 4 n

/-- Header of a msgpack map of `n` entries: fixmap, map 16 or map 32. -/
def mapHeader (n : Nat) : Bytes :=
  if n ≤ 0x0f then [0x80 + n]
  else if n ≤ 0xffff then 0xde :: beBytes 2 n
  else 0xdf :: beBytes 4 n

/-- A string on the wire: the header with its length, then its bytes. -/
def encodeString (s : GoString) : Bytes :=
  strHeader s.bytes.length ++ s.bytes

/-- A map on the wire: nil, or the header followed by key and value of every entry. -/
def encodeMap : GoMap → Bytes
  | none => [0xc0]
  | some es =>
    mapHeader es.length ++ (es.map (fun kv => encodeString kv.1 ++ encodeString kv.2)).flatten

/-- The record on the wire: a two-entry map from field name to field value. -/
def encodeDiskSync (s : DiskSync) : Bytes :=
  mapHeader 2 ++ encodeString "Filters" ++ encodeMap s.Filters
    ++ encodeString "NextBatch" ++ encodeMap s.NextBatch

/-- A stream reader: consumes a prefix of the input and returns a value with the rest, or
fails. -/
def Reader (α : Type) : Type := Bytes → Option (α × Bytes)

instance : Monad Reader where
  pure a := fun bs => some (a, bs)
  bind p f := fun bs =>
    match p bs with
    | none => none
    | some (a, rest) => f a rest

/-- The failing reader (a decode error). -/
def Reader.fail {α : Type} : Reader α := fun _ => none

/-- Read one byte. -/
def readByte : Reader Nat
  | [] => none
  | b :: rest => some (b, rest)

/-- Read exactly `n` bytes. -/
def readN (n : Nat) : Reader Bytes := fun bs =>
  if n ≤ bs.length then some (bs.take n, bs.drop n) else none

/-- Read a `k`-byte big-endian unsigned integer. -/
def readUint (k : Nat) : Reader Nat := do
  let bs ← readN k
  pure (bs.foldl (fun acc b => acc * 256 + b) 0)

/-- Read a string: nil (empty), fixstr, str 8, str 16 or str 32; the payload bytes are taken
as they are. -/
def readString : Reader GoString := do
  let c ← readByte
  let n ← (if c = 0xc0 then pure 0
    else if 0xa0 ≤ c ∧ c ≤ 0xbf then pure (c - 0xa0)
    else if c = 0xd9 then readUint 1
    else if c = 0xda then readUint 2
    else if c = 0xdb then readUint 4
    else Reader.fail : Reader Nat)
  let payload ← readN n
  pure { bytes := payload }

/-- Entry count of a map whose first byte is `c`: fixmap, map 16 or map 32. -/
def readMapLen (c : Nat) : Reader Nat :=
  if 0x80 ≤ c ∧ c ≤ 0x8f then pure (c - 0x80)
  else if c = 0xde then readUint 2
  else if c = 0xdf then readUint 4
  else Reader.fail

/-- Read `n` key/value pairs, storing each into the map. -/
def readEntries : Nat → List (GoString × GoString) → Reader (List (GoString × GoString))
  | 0, es => pure es
  | n + 1, es => do
    let k ← readString
    let v ← readString
    readEntries n (setEntry es k v)

/-- Decode a map into a field holding `cur`: nil leaves the field as it is, otherwise the map
is made if it is nil and the entries are stored. -/
def readMapInto (cur : GoMap) : Reader GoMap := do
  let c ← readByte
  if c = 0xc0 then pure cur
  else do
    let l ← readMapLen c
    let es ← readEntries l (cur.getD [])
    pure (some es)

/-- What a multi-byte length in a skipped value counts: payload bytes (with `extra` more bytes
after them, the type byte of an ext value), array elements, or map entries. -/
inductive LenKind where
  | payload (extra : Nat)
  | array
  | map
  deriving DecidableEq, Repr

/-- Progress of skipping: `values` whole values are still to skip, after the `raw` payload
bytes and the `lenBytes` bytes of a length (read so far: `len`) of the value under way. -/
structure Skip where
  values : Nat
  raw : Nat := 0
  lenBytes : Nat := 0
  len : Nat := 0
  kind : LenKind := .payload 0
  deriving DecidableEq, Repr

/-- Nothing is left to skip. -/
def Skip.done (st : Skip) : Bool :=
  st.values == 0 && st.raw == 0 && st.lenBytes == 0

/-- The length of the value under way is complete and is `n`. -/
def Skip.withLen (values : Nat) (kind : LenKind) (n : Nat) : Skip :=
  match kind with
  | .payload extra => { values := values, raw := n + extra }
  | .array => { values := values + n }
  | .map => { values := values + 2 * n }

/-- The first byte `b` of a value, with `v` values to skip after it: what the value still
holds.  Fixints, nil, booleans (and the unused code `0xc1`) are the byte alone; numbers,
fixstr and fixext have a fixed payload; str, bin and ext have a length then a payload; an
array holds that many values and a map twice as many. -/
def Skip.start (v b : Nat) : Skip :=
  if b ≤ 0x7f then { values := v }
  else if b ≤ 0x8f then { values := v + 2 * (b - 0x80) }
  else if b ≤ 0x9f then { values := v + (b - 0x90) }
  else if b ≤ 0xbf then { values := v, raw := b - 0xa0 }
  else if b = 0xc4 ∨ b = 0xd9 then { values := v, lenBytes := 1, kind := .payload 0 }
  else if b = 0xc5 ∨ b = 0xda then { values := v, lenBytes := 2, kind := .payload 0 }
  else if b = 0xc6 ∨ b = 0xdb then { values := v, lenBytes := 4, kind := .payload 0 }
  else if b = 0xc7 then { values := v, lenBytes := 1, kind := .payload 1 }
  else if b = 0xc8 then { values := v, lenBytes := 2, kind := .payload 1 }
  else if b = 0xc9 then { values := v, lenBytes := 4, kind := .payload 1 }
  else if b = 0xcc ∨ b = 0xd0 then { values := v, raw := 1 }
  else if b = 0xcd ∨ b = 0xd1 then { values := v, raw := 2 }
  else if b = 0xca ∨ b = 0xce ∨ b = 0xd2 then { values := v, raw := 4 }
  else if b = 0xcb ∨ b = 0xcf ∨ b = 0xd3 then { values := v, raw := 8 }
  else if b = 0xd4 then { values := v, raw := 2 }
  else if b = 0xd5 then { values := v, raw := 3 }
  else if b = 0xd6 then { values := v, raw := 5 }
  else if b = 0xd7 then { values := v, raw := 9 }
  else if b = 0xd8 then { values := v, raw := 17 }
  else if b = 0xdc then { values := v, lenBytes := 2, kind := .array }
  else if b = 0xdd then { values := v, lenBytes := 4, kind := .array }
  else if b = 0xde then { values := v, lenBytes := 2, kind := .map }
  else if b = 0xdf then { values := v, lenBytes := 4, kind := .map }
  else { values := v }

/-- Skip one more byte `b`: a payload byte, a byte of a length, or the first byte of the next
value. -/
def Skip.step (st : Skip) (b : Nat) : Skip :=
  if 0 < st.raw then { st with raw := st.raw - 1 }
  else if 0 < st.lenBytes then
    if st.lenBytes = 1 then Skip.withLen st.values st.kind (st.len * 256 + b)
    else { st with lenBytes := st.lenBytes - 1, len := st.len * 256 + b }
  else Skip.start (st.values - 1) b

/-- Skip bytes until nothing is left to skip; running out of bytes before is an error. -/
def skipRun : Skip → Bytes → Option Bytes
  | st, [] => if st.done then some [] else none
  | st, b :: rest => if st.done then some (b :: rest) else skipRun (st.step b) rest

/-- The library's `jumpOffset`: skip one value of any type.  The library recurses into the
elements of arrays and maps; here the values still to skip are counted. -/
def jumpOffset : Reader Unit := fun bs =>
  (skipRun { values := 1 } bs).map (fun rest => ((), rest))

/-- Read `n` entries of the record, each a key followed by a value: the value of a key that
names a field of `DiskSync` is decoded into the field, the value of any other key is
skipped. -/
def readFields : Nat → DiskSync → Reader DiskSync
  | 0, s => pure s
  | n + 1, s => do
    let k ← readString
    if k = "Filters" then do
      let m ← readMapInto s.Filters
      readFields n { s with Filters := m }
    else if k = "NextBatch" then do
      let m ← readMapInto s.NextBatch
      readFields n { s with NextBatch := m }
    else do
      jumpOffset
      readFields n s

/-- Decode one record into a zero `DiskSync`. -/
def readDiskSync : Reader DiskSync := do
  let c ← readByte
  let l ← readMapLen c
  readFields l {}

/-! ## The sync store on disk -/

/-- The errors the store returns. -/
inductive GoError where
  | ErrNotExist
  | ErrDecode
  deriving DecidableEq, Repr

/-- How a call ends: it returns an `error` value (`none` is Go `nil`) or it panics. -/
inductive Ret where
  | returned (err : Option GoError)
  | panicked
  deriving DecidableEq, Repr

/-- The file system as far as the store sees it: the content of `data/syncstore`, `none` when
the file does not exist. -/
structure Disk where
  syncstore : Option Bytes
  deriving DecidableEq, Repr

/-- An open handle on `data/syncstore`: the file content and the handle position. -/
structure File where
  content : Bytes
  offset : Nat
  deriving DecidableEq, Repr

/-- Go `msgpack.UnmarshalRead(f, s)` on a zero `s`: decodes from the handle position and
leaves the handle after the bytes read. -/
def UnmarshalRead (f : File) : Option (DiskSync × File) :=
  match readDiskSync (f.content.drop f.offset) with
  | none => none
  | some (s, rest) => some (s, { f with offset := f.content.length - rest.length })

/-- Go `msgpack.MarshalWrite(f, s)`: writes the encoded record at the handle position, over
the bytes that are there and past the end if need be, and advances the handle.  The disk is
taken to accept the write. -/
def MarshalWrite (f : File) (s : DiskSync) : File :=
  let p := encodeDiskSync s
  { content := f.content.take f.offset ++ p ++ f.content.drop (f.offset + p.length)
    offset := f.offset + p.length }

/-- Go `DiskSyncStore.SaveFilterID`. -/
def SaveFilterID (d : Disk) (userID filterID : GoString) : Disk × Ret :=
  match d.syncstore with
  | none => (d, .returned (some .ErrNotExist))
  | some content =>
    let f : File := { content := content, offset := 0 }
    match UnmarshalRead f with
    | none => (d, .returned (some .ErrDecode))
    | some (s, f) =>
      match s.Filters with
      | none => (d, .panicked)
      | some es =>
        let s := { s with Filters := some (setEntry es userID filterID) }
        let f := MarshalWrite f s
        ({ syncstore := some f.content }, .returned none)

/-- Go `DiskSyncStore.LoadFilterID`. -/
def LoadFilterID (d : Disk) (userID : GoString) : GoString × Option GoError :=
  match d.syncstore with
  | none => ("", some .ErrNotExist)
  | some content =>
    match UnmarshalRead { content := content, offset := 0 } with
    | none => ("", some .ErrDecode)
    | some (s, _) => (s.Filters.get userID, none)

/-- Go `DiskSyncStore.SaveNextBatch`. -/
def SaveNextBatch (d : Disk) (userID nextBatchToken : GoString) : Disk × Ret :=
  match d.syncstore with
  | none => (d, .returned (some .ErrNotExist))
  | some content =>
    let f : File := { content := content, offset := 0 }
    match UnmarshalRead f with
    | none => (d, .returned (some .ErrDecode))
    | some (s, f) =>
      match s.NextBatch with
      | none => (d, .panicked)
      | some es =>
        let s := { s with NextBatch := some (setEntry es userID nextBatchToken) }
        let f := MarshalWrite f s
        ({ syncstore := some f.content }, .returned none)

/-- Go `DiskSyncStore.LoadNextBatch`. -/
def LoadNextBatch (d : Disk) (userID : GoString) : GoString × Option GoError :=
  match d.syncstore with
  | none => ("", some .ErrNotExist)
  | some content =>
    match UnmarshalRead { content := content, offset := 0 } with
    | none => ("", some .ErrDecode)
    | some (s, _) => (s.NextBatch.get userID, none)

/-- The store file `main` makes on first run: the record of two empty, non-nil maps. -/
def freshStore : Disk :=
  { syncstore := some (encodeDiskSync { Filters := some [], NextBatch := some [] }) }

/-- A store file in use.  Its record has three entries: the filters, with "fy" for
"@y:server" and "fx" for "@x:server"; a key "Extra" that names no field, with the array
`[1, nil]` as value; the next-batch tokens, with the two bytes `ff fe`, which are not UTF-8,
for "@y:server". -/
def usedStore : Disk :=
  { syncstore := some (mapHeader 3
      ++ encodeString "Filters"
      ++ encodeMap (some [("@y:server", "fy"), ("@x:server", "fx")])
      ++ encodeString "Extra" ++ [0x92, 0x01, 0xc0]
      ++ encodeString "NextBatch"
      ++ encodeMap (some [("@y:server", { bytes := [0xff, 0xfe] })])) }

/-! ## Events, settings and clients

The two client libraries are external.  A client is modelled by the answer it gives to each
call (`none` for a nil error); a handler returns the list of calls it made, in order, with the
errors it logged. -/

/-- The fields of `event.MessageEventContent` this program reads or that the formatter fills. -/
structure MessageEventContent where
  MsgType : String := ""
  Body : String := ""
  Format : String := ""
  FormattedBody : String := ""
  URL : String := ""
  deriving DecidableEq, Repr

/-- The field of `event.MemberEventContent` this program reads. -/
structure MemberEventContent where
  Membership : String := ""
  deriving DecidableEq, Repr

/-- The parsed content of an event. -/
inductive ParsedContent where
  | message (c : MessageEventContent)
  | member (c : MemberEventContent)
  | other
  deriving DecidableEq, Repr

/-- Go `event.Content`. -/
structure Content where
  Parsed : ParsedContent
  deriving DecidableEq, Repr

/-- Go `Content.AsMessage`: the parsed message content, or an empty one when the content is of
another type. -/
def Content.AsMessage (c : Content) : MessageEventContent :=
  match c.Parsed with
  | .message m => m
  | _ => {}

/-- Go `Content.AsMember`: the parsed member content, or an empty one. -/
def Content.AsMember (c : Content) : MemberEventContent :=
  match c.Parsed with
  | .member m => m
  | _ => {}

/-- Go `event.Event`, the fields the handlers read. -/
structure Event where
  Sender : String
  RoomID : String
  Content : Content
  deriving DecidableEq, Repr

/-- Go `event.MembershipInvite`. -/
def MembershipInvite : String := "invite"

/-- Go `event.EventMessage`, the type of a room message event. -/
def EventMessage : String := "m.room.message"

/-- Go `id.ContentURI`. -/
structure ContentURI where
  Homeserver : String := ""
  FileID : String := ""
  deriving DecidableEq, Repr

/-- Go `id.ContentURIString.ParseOrIgnore`: an `mxc://homeserver/fileID` link with a non-empty
file ID is split at the first slash after the scheme; any other text gives the empty URI. -/
def ParseOrIgnore (uri : String) : ContentURI :=
  match uri.data with
  | 'm' :: 'x' :: 'c' :: ':' :: '/' :: '/' :: rest =>
    match rest.dropWhile (fun c => c != '/') with
    | [] => {}
    | _ :: fileID =>
      if fileID = [] then {}
      else { Homeserver := String.mk (rest.takeWhile (fun c => c != '/'))
             FileID := String.mk fileID }
  | _ => {}

/-- Go `id.ContentURI.String`: empty when a part is empty, else the link written out again. -/
def ContentURI.String (uri : ContentURI) : String :=
  if uri.Homeserver = "" ∨ uri.FileID = "" then ""
  else "mxc://" ++ uri.Homeserver ++ "/" ++ uri.FileID

/-- Go `discordgo.User`. -/
structure User where
  ID : String
  Username : String
  deriving DecidableEq, Repr

/-- Go `discordgo.MessageAttachment`. -/
structure MessageAttachment where
  URL : String
  deriving DecidableEq, Repr

/-- Go `discordgo.MessageCreate`, the fields the handler reads. -/
structure MessageCreate where
  ChannelID : String
  Content : String
  Author : User
  Attachments : List MessageAttachment
  deriving DecidableEq, Repr

/-- Go `Settings`.  `Channels` lists the entries of the map in iteration order, which Go leaves
open; the keys are distinct, and a nil map reads like an empty one. -/
structure Settings where
  Homeserver : String
  UserID : String
  AccessToken : String
  Token : String
  Channels : List (String × String)

/-- The protocol-A client, `*mautrix.Client`: the error each call returns. -/
structure MautrixClient where
  JoinRoomByID : String → Option String
  SendMessageEvent : String → String → MessageEventContent → Option String

/-- Go `discordgo.State`: the session's own user. -/
structure DiscordState where
  User : User

/-- The protocol-B client, `*discordgo.Session`. -/
structure DiscordSession where
  State : DiscordState
  ChannelMessageSend : String → String → Option String

/-- Go `State`, the global `state`. -/
structure State where
  M : MautrixClient
  D : DiscordSession
  S : Settings

/-- What a handler does to the outside: a client call, or a logged error. -/
inductive Effect where
  | JoinRoomByID (roomID : String)
  | ChannelMessageSend (channelID content : String)
  | SendMessageEvent (roomID eventType : String) (content : MessageEventContent)
  | LogErr (err : String)
  deriving DecidableEq, Repr

/-- Whether the effect is a call to one of the two clients. -/
def Effect.isCall : Effect → Bool
  | .LogErr _ => false
  | _ => true

/-- The client calls of a handler run, in order. -/
def calls (t : List Effect) : List Effect := t.filter Effect.isCall

/-! ## Mapper, translators and handlers -/

/-- Go `m[k]` on the channel mapping: the zero value `""` when the key is absent. -/
def index (m : List (String × String)) (k : String) : String :=
  (m.lookup k).getD ""

/-- Go `keyByValue`: the first key met, in iteration order, whose value is `val`. -/
def keyByValue : List (String × String) → String → String
  | [], _ => ""
  | (k, v) :: m, val => if v = val then k else keyByValue m val

/-- Go `renderDiscord`; `body +=` becomes a rebinding of `body`. -/
def renderDiscord (e : Event) : String :=
  let body := ""
  let url := (ParseOrIgnore e.Content.AsMessage.URL).String
  let body := if url ≠ "" then body ++ ("`" ++ e.Sender ++ "` " ++ url) else body
  let body := body ++ ("`" ++ e.Sender ++ "` " ++ e.Content.AsMessage.Body)
  body

/-- The text `renderMatrix` assembles before it calls the formatter. -/
def renderMatrixBody (e : MessageCreate) : String :=
  e.Attachments.foldl
    (fun body attachment => body ++ ("\n`" ++ e.Author.Username ++ "` " ++ attachment.URL))
    ("`" ++ e.Author.Username ++ "` " ++ e.Content)

/-- Go `renderMatrix`; `RenderMarkdown` is `format.RenderMarkdown` of the external library, with
its arguments `text`, `allowMarkdown`, `allowHTML`. -/
def renderMatrix (RenderMarkdown : String → Bool → Bool → MessageEventContent)
    (e : MessageCreate) : MessageEventContent :=
  RenderMarkdown (renderMatrixBody e) true false

/-- Go `matrixInvite`. -/
def matrixInvite (state : State) (e : Event) : List Effect :=
  if e.Content.AsMember.Membership ≠ MembershipInvite then []
  else
    match state.M.JoinRoomByID e.RoomID with
    | some err => [.JoinRoomByID e.RoomID, .LogErr err]
    | none => [.JoinRoomByID e.RoomID]

/-- Go `matrixMessage`. -/
def matrixMessage (state : State) (e : Event) : List Effect :=
  if e.Sender = state.S.UserID then []
  else
    let channel := keyByValue state.S.Channels e.RoomID
    let body := renderDiscord e
    match state.D.ChannelMessageSend channel body with
    | some err => [.ChannelMessageSend channel body, .LogErr err]
    | none => [.ChannelMessageSend channel body]

/-- Go `discordMessage`. -/
def discordMessage (RenderMarkdown : String → Bool → Bool → MessageEventContent)
    (state : State) (e : MessageCreate) : List Effect :=
  if e.Author.ID = state.D.State.User.ID then []
  else
    let room := index state.S.Channels e.ChannelID
    let content := renderMatrix RenderMarkdown e
    match state.M.SendMessageEvent room EventMessage content with
    | some err => [.SendMessageEvent room EventMessage content, .LogErr err]
    | none => [.SendMessageEvent room EventMessage content]

/-- Number of lines of a text: one more than its line breaks. -/
def lineCount (s : String) : Nat := s.data.count '\n' + 1

/-- Whether a text holds a line break. -/
def hasLineBreak (s : String) : Bool := decide ('\n' ∈ s.data)

/-- A formatter for worked examples: the text as plain `m.text` body, which is what
`format.RenderMarkdown` gives with markdown and HTML both off. -/
def plainBody (text : String) (_allowMarkdown _allowHTML : Bool) : MessageEventContent :=
  { MsgType := "m.text", Body := text }

/-- A client that accepts every call. -/
def okMautrix : MautrixClient :=
  { JoinRoomByID := fun _ => none, SendMessageEvent := fun _ _ _ => none }

/-- A client whose sends fail. -/
def failingMautrix : MautrixClient :=
  { JoinRoomByID := fun _ => some "M_FORBIDDEN"
    SendMessageEvent := fun _ _ _ => some "M_FORBIDDEN" }

/-- A bridge with the mapping `{"general": "!room:server"}`. -/
def sampleState (m : MautrixClient) (sendErr : Option String) : State :=
  { M := m
    D := { State := { User := { ID := "1001", Username := "bridge" } }
           ChannelMessageSend := fun _ _ => sendErr }
    S := { Homeserver := "server", UserID := "@bridge:server", AccessToken := "t", Token := "d"
           Channels := [("general", "!room:server")] } }

/-- A protocol-A text message. -/
def textEvent (sender room body url : String) : Event :=
  { Sender := sender, RoomID := room
    Content := { Parsed := .message { MsgType := "m.text", Body := body, URL := url } } }

/-- The lines `renderMatrix` is to add after the first, one per attachment, each opened by a
line break. -/
def attachmentLines (username : String) : List MessageAttachment → String
  | [] => ""
  | a :: rest => ("\n`" ++ username ++ "` " ++ a.URL) ++ attachmentLines username rest

/-- A provisioned store: the file exists and decodes to a record with both maps present. -/
def provisioned (d : Disk) : Bool :=
  match d.syncstore with
  | none => false
  | some content =>
    match UnmarshalRead { content := content, offset := 0 } with
    | none => false
    | some (s, _) => s.Filters.isSome && s.NextBatch.isSome

/-! ## Readers consume a prefix and look at nothing else -/

/-- A reader is local when a successful read consumed a prefix of its input and gives the same
value on that prefix followed by anything else. -/
def Reader.Local {α : Type} (p : Reader α) : Prop :=
  ∀ bs a rest, p bs = some (a, rest) →
    ∃ pre, bs = pre ++ rest ∧ ∀ t, p (pre ++ t) = some (a, t)

theorem Reader.bind_apply {α β : Type} (p : Reader α) (f : α → Reader β) (bs : Bytes) :
    (p >>= f) bs = match p bs with
      | none => none
      | some (a, rest) => f a rest := rfl

theorem Reader.pure_apply {α : Type} (a : α) (bs : Bytes) :
    (pure a : Reader α) bs = some (a, bs) := rfl

theorem Reader.local_pure {α : Type} (a : α) : (pure a : Reader α).Local := by
  intro bs b rest h
  rw [Reader.pure_apply] at h
  obtain ⟨rfl, rfl⟩ := Prod.mk.inj (Option.some.inj h)
  exact ⟨[], rfl, fun t => rfl⟩

theorem Reader.local_fail {α : Type} : (Reader.fail : Reader α).Local := by
  intro bs b rest h
  simp [Reader.fail] at h

theorem Reader.local_bind {α β : Type} {p : Reader α} {f : α → Reader β}
    (hp : p.Local) (hf : ∀ a, (f a).Local) : (p >>= f).Local := by
  intro bs b rest h
  rw [Reader.bind_apply] at h
  cases hpb : p bs with
  | none => rw [hpb] at h; simp at h
  | some ar =>
    obtain ⟨a, mid⟩ := ar
    rw [hpb] at h
    obtain ⟨pre1, h1, k1⟩ := hp bs a mid hpb
    obtain ⟨pre2, h2, k2⟩ := hf a mid b rest h
    refine ⟨pre1 ++ pre2, by rw [h1, h2, List.append_assoc], fun t => ?_⟩
    rw [Reader.bind_apply, List.append_assoc, k1 (pre2 ++ t)]
    exact k2 t

theorem Reader.local_ite {α : Type} (c : Prop) [Decidable c] {p q : Reader α}
    (hp : p.Local) (hq : q.Local) : (if c then p else q).Local := by
  split
  · exact hp
  · exact hq

theorem local_readByte : readByte.Local := by
  intro bs b rest h
  cases bs with
  | nil => simp [readByte] at h
  | cons x xs =>
    simp only [readByte, Option.some.injEq, Prod.mk.injEq] at h
    obtain ⟨rfl, rfl⟩ := h
    exact ⟨[x], rfl, fun t => rfl⟩

theorem local_readN (n : Nat) : (readN n).Local := by
  intro bs b rest h
  unfold readN at h
  split at h
  · rename_i hn
    obtain ⟨rfl, rfl⟩ := Prod.mk.inj (Option.some.inj h)
    refine ⟨bs.take n, (List.take_append_drop n bs).symm, fun t => ?_⟩
    have hl : (List.take n bs).length = n := by simp [List.length_take, hn]
    unfold readN
    rw [if_pos (by simp [hl])]
    congr 2
    · rw [List.take_append_of_le_length (by omega), List.take_of_length_le (by omega)]
    · rw [List.drop_append_of_le_length (by omega), List.drop_of_length_le (by omega)]
      rfl
  · simp at h

theorem local_readUint (k : Nat) : (readUint k).Local :=
  Reader.local_bind (local_readN k) (fun _ => Reader.local_pure _)

theorem local_readString : readString.Local := by
  unfold readString
  refine Reader.local_bind local_readByte (fun c => ?_)
  refine Reader.local_bind ?_ (fun n => ?_)
  · refine Reader.local_ite _ (Reader.local_pure _) ?_
    refine Reader.local_ite _ (Reader.local_pure _) ?_
    refine Reader.local_ite _ (local_readUint _) ?_
    refine Reader.local_ite _ (local_readUint _) ?_
    exact Reader.local_ite _ (local_readUint _) Reader.local_fail
  · exact Reader.local_bind (local_readN n) (fun payload => Reader.local_pure _)

theorem local_readMapLen (c : Nat) : (readMapLen c).Local := by
  unfold readMapLen
  refine Reader.local_ite _ (Reader.local_pure _) ?_
  refine Reader.local_ite _ (local_readUint _) ?_
  exact Reader.local_ite _ (local_readUint _) Reader.local_fail

theorem local_readEntries (n : Nat) : ∀ es, (readEntries n es).Local := by
  induction n with
  | zero => intro es; exact Reader.local_pure es
  | succ n ih =>
    intro es
    unfold readEntries
    exact Reader.local_bind local_readString (fun k =>
      Reader.local_bind local_readString (fun v => ih _))

theorem local_readMapInto (cur : GoMap) : (readMapInto cur).Local := by
  unfold readMapInto
  refine Reader.local_bind local_readByte (fun c => ?_)
  refine Reader.local_ite _ (Reader.local_pure _) ?_
  exact Reader.local_bind (local_readMapLen c) (fun l =>
    Reader.local_bind (local_readEntries l _) (fun es => Reader.local_pure _))

theorem local_skipRun (bs : Bytes) : ∀ (st : Skip) (rest : Bytes),
    skipRun st bs = some rest →
      ∃ pre, bs = pre ++ rest ∧ ∀ t, skipRun st (pre ++ t) = some t := by
  induction bs with
  | nil =>
    intro st rest h
    unfold skipRun at h
    split at h
    · rename_i hd
      obtain rfl := Option.some.inj h
      refine ⟨[], rfl, fun t => ?_⟩
      cases t <;> simp [skipRun, hd]
    · simp at h
  | cons b bs ih =>
    intro st rest h
    unfold skipRun at h
    split at h
    · rename_i hd
      obtain rfl := Option.some.inj h
      refine ⟨[], rfl, fun t => ?_⟩
      cases t <;> simp [skipRun, hd]
    · rename_i hd
      obtain ⟨pre, hpre, hk⟩ := ih (st.step b) rest h
      refine ⟨b :: pre, by rw [hpre]; rfl, fun t => ?_⟩
      rw [List.cons_append, skipRun, if_neg hd]
      exact hk t

theorem local_jumpOffset : jumpOffset.Local := by
  intro bs a rest h
  unfold jumpOffset at h
  cases hs : skipRun { values := 1 } bs with
  | none => rw [hs] at h; simp at h
  | some r =>
    rw [hs] at h
    simp only [Option.map_some', Option.some.injEq, Prod.mk.injEq] at h
    obtain ⟨_, rfl⟩ := h
    obtain ⟨pre, hpre, hk⟩ := local_skipRun bs _ r hs
    refine ⟨pre, hpre, fun t => ?_⟩
    unfold jumpOffset
    rw [hk t]
    rfl

theorem local_readFields (n : Nat) : ∀ s, (readFields n s).Local := by
  induction n with
  | zero => intro s; exact Reader.local_pure s
  | succ n ih =>
    intro s
    unfold readFields
    refine Reader.local_bind local_readString (fun k => ?_)
    refine Reader.local_ite _ ?_ ?_
    · exact Reader.local_bind (local_readMapInto _) (fun m => ih _)
    · refine Reader.local_ite _ ?_ ?_
      · exact Reader.local_bind (local_readMapInto _) (fun m => ih _)
      · exact Reader.local_bind local_jumpOffset (fun _ => ih _)

theorem local_readDiskSync : readDiskSync.Local :=
  Reader.local_bind local_readByte (fun c =>
    Reader.local_bind (local_readMapLen c) (fun l => local_readFields l _))

/-- Writing through the handle that has just decoded a record leaves that record in place:
a later decode from the start of the file gives the same record again. -/
theorem read_after_write (content : Bytes) (s s1 : DiskSync) (f : File)
    (h : UnmarshalRead { content := content, offset := 0 } = some (s, f)) :
    ∃ f1, UnmarshalRead { content := (MarshalWrite f s1).content, offset := 0 }
      = some (s, f1) := by
  unfold UnmarshalRead at h
  simp only [List.drop_zero] at h
  cases hr : readDiskSync content with
  | none => rw [hr] at h; simp at h
  | some ar =>
    obtain ⟨a, rest⟩ := ar
    rw [hr] at h
    simp only [Option.some.injEq, Prod.mk.injEq] at h
    obtain ⟨rfl, rfl⟩ := h
    obtain ⟨pre, hc, hk⟩ := local_readDiskSync content a rest hr
    have hoff : content.length - rest.length = pre.length := by
      rw [hc, List.length_append]; omega
    have htake : List.take pre.length content = pre := by
      rw [hc, List.take_left]
    unfold MarshalWrite UnmarshalRead
    simp only [List.drop_zero, hoff, htake, List.append_assoc]
    rw [hk]
    exact ⟨_, rfl⟩

/-! ## The sync store -/

theorem provisioned_decodes (d : Disk) (h : provisioned d = true) :
    ∃ content s f esF esN, d.syncstore = some content ∧
      UnmarshalRead { content := content, offset := 0 } = some (s, f) ∧
      s.Filters = some esF ∧ s.NextBatch = some esN := by
  unfold provisioned at h
  cases hc : d.syncstore with
  | none => simp [hc] at h
  | some content =>
    simp only [hc] at h
    cases hr : UnmarshalRead { content := content, offset := 0 } with
    | none => simp [hr] at h
    | some sf =>
      obtain ⟨s, f⟩ := sf
      simp only [hr, Bool.and_eq_true, Option.isSome_iff_exists] at h
      obtain ⟨⟨esF, hF⟩, ⟨esN, hN⟩⟩ := h
      exact ⟨content, s, f, esF, esN, rfl, hr, hF, hN⟩

theorem lookup_setEntry_self (es : List (GoString × GoString)) (k v : GoString) :
    (setEntry es k v).lookup k = some v := by
  induction es with
  | nil => simp [setEntry, List.lookup]
  | cons p es ih =>
    obtain ⟨k1, v1⟩ := p
    unfold setEntry
    by_cases hk : k1 = k
    · rw [if_pos hk, hk, List.lookup_cons_self]
    · rw [if_neg hk, List.lookup_cons, beq_false_of_ne (Ne.symm hk)]
      exact ih

theorem lookup_setEntry_ne (es : List (GoString × GoString)) (k y v : GoString)
    (h : k ≠ y) : (setEntry es k v).lookup y = es.lookup y := by
  induction es with
  | nil => simp [setEntry, List.lookup, beq_false_of_ne (Ne.symm h)]
  | cons p es ih =>
    obtain ⟨k1, v1⟩ := p
    unfold setEntry
    by_cases hk : k1 = k
    · rw [if_pos hk, List.lookup_cons, List.lookup_cons, hk, beq_false_of_ne (Ne.symm h)]
    · rw [if_neg hk, List.lookup_cons, List.lookup_cons, ih]

/-- On a provisioned store `SaveFilterID` decodes the record, returns nil and leaves the file
as written through the handle with the entry of `x` set in the filters. -/
theorem SaveFilterID_on_provisioned (d : Disk) (x v : GoString) (h : provisioned d = true) :
    ∃ content s h0 es, d.syncstore = some content ∧
      UnmarshalRead { content := content, offset := 0 } = some (s, h0) ∧
      s.Filters = some es ∧
      SaveFilterID d x v = ({ syncstore := some (MarshalWrite h0
          { s with Filters := some (setEntry es x v) }).content }, .returned none) := by
  obtain ⟨c, s, f, esF, esN, hc, hr, hF, _⟩ := provisioned_decodes d h
  refine ⟨c, s, f, esF, hc, hr, hF, ?_⟩
  unfold SaveFilterID
  simp only [hc, hr, hF]

/-- On a provisioned store `SaveNextBatch` decodes the record, returns nil and leaves the
file as written through the handle with the entry of `x` set in the next-batch tokens. -/
theorem SaveNextBatch_on_provisioned (d : Disk) (x v : GoString) (h : provisioned d = true) :
    ∃ content s h0 es, d.syncstore = some content ∧
      UnmarshalRead { content := content, offset := 0 } = some (s, h0) ∧
      s.NextBatch = some es ∧
      SaveNextBatch d x v = ({ syncstore := some (MarshalWrite h0
          { s with NextBatch := some (setEntry es x v) }).content }, .returned none) := by
  obtain ⟨c, s, f, esF, esN, hc, hr, _, hN⟩ := provisioned_decodes d h
  refine ⟨c, s, f, esN, hc, hr, hN, ?_⟩
  unfold SaveNextBatch
  simp only [hc, hr, hN]

/-- Two stores whose files decode to the same record answer every load alike. -/
theorem loads_of_same_record (d d1 : Disk) (c c1 : Bytes) (s : DiskSync) (f f1 : File)
    (hc : d.syncstore = some c) (hc1 : d1.syncstore = some c1)
    (hr : UnmarshalRead { content := c, offset := 0 } = some (s, f))
    (hr1 : UnmarshalRead { content := c1, offset := 0 } = some (s, f1)) (u : GoString) :
    LoadFilterID d1 u = LoadFilterID d u ∧ LoadNextBatch d1 u = LoadNextBatch d u := by
  unfold LoadFilterID LoadNextBatch
  simp only [hc, hc1, hr, hr1, and_self]

/-- C1, on the code: on the store file of a first run, two calls `SaveFilterID(u, "f1")` both
return nil, and `LoadFilterID(u)` then returns the empty string with a nil error, not "f1":
each save writes its record behind the one it has just read, and a load reads the first. -/
theorem C1_save_twice_then_load_gives_old_value :
    provisioned freshStore = true ∧
    (SaveFilterID freshStore "@bridge:server" "f1").2 = .returned none ∧
    (SaveFilterID (SaveFilterID freshStore "@bridge:server" "f1").1 "@bridge:server" "f1").2
      = .returned none ∧
    LoadFilterID
      (SaveFilterID (SaveFilterID freshStore "@bridge:server" "f1").1 "@bridge:server" "f1").1
      "@bridge:server" = (("" : GoString), none) ∧
    LoadFilterID
      (SaveFilterID (SaveFilterID freshStore "@bridge:server" "f1").1 "@bridge:server" "f1").1
      "@bridge:server" ≠ (("f1" : GoString), none) := by
  decide

/-- C6: on a provisioned store, for distinct subscribers `x` and `y`, `SaveFilterID(x, f)`
returns nil and afterwards `LoadFilterID(y)` and `LoadNextBatch(u)` for every `u` return what
they returned before; likewise `SaveNextBatch(x, c)` returns nil and leaves `LoadNextBatch(y)`
and every `LoadFilterID(u)` unchanged.  Moreover the record each save writes through the
handle is the record it decoded with the one entry of `x` set: the entry of `y` in that field
and the whole other field are as decoded. -/
theorem C6_save_leaves_other_entries (d : Disk) (x y f c : GoString)
    (hprov : provisioned d = true) (hxy : x ≠ y) :
    ((SaveFilterID d x f).2 = .returned none ∧
      LoadFilterID (SaveFilterID d x f).1 y = LoadFilterID d y ∧
      (∀ u, LoadNextBatch (SaveFilterID d x f).1 u = LoadNextBatch d u) ∧
      ∃ content s h s1, d.syncstore = some content ∧
        UnmarshalRead { content := content, offset := 0 } = some (s, h) ∧
        (SaveFilterID d x f).1.syncstore = some (MarshalWrite h s1).content ∧
        s1.Filters.get x = f ∧ s1.Filters.get y = s.Filters.get y ∧
        s1.NextBatch = s.NextBatch) ∧
    ((SaveNextBatch d x c).2 = .returned none ∧
      LoadNextBatch (SaveNextBatch d x c).1 y = LoadNextBatch d y ∧
      (∀ u, LoadFilterID (SaveNextBatch d x c).1 u = LoadFilterID d u) ∧
      ∃ content s h s1, d.syncstore = some content ∧
        UnmarshalRead { content := content, offset := 0 } = some (s, h) ∧
        (SaveNextBatch d x c).1.syncstore = some (MarshalWrite h s1).content ∧
        s1.NextBatch.get x = c ∧ s1.NextBatch.get y = s.NextBatch.get y ∧
        s1.Filters = s.Filters) := by
  constructor
  · obtain ⟨c0, s, h0, es, hc, hr, hF, hsave⟩ := SaveFilterID_on_provisioned d x f hprov
    obtain ⟨f1, h1⟩ := read_after_write c0 s { s with Filters := some (setEntry es x f) } h0 hr
    rw [hsave]
    refine ⟨rfl, ?_, fun u => ?_, c0, s, h0, _, hc, hr, rfl, ?_, ?_, rfl⟩
    · exact (loads_of_same_record d _ c0 _ s h0 f1 hc rfl hr h1 y).1
    · exact (loads_of_same_record d _ c0 _ s h0 f1 hc rfl hr h1 u).2
    · show ((setEntry es x f).lookup x).getD _ = f
      rw [lookup_setEntry_self]
      rfl
    · show ((setEntry es x f).lookup y).getD _ = s.Filters.get y
      rw [lookup_setEntry_ne es x y f hxy, hF]
      rfl
  · obtain ⟨c0, s, h0, es, hc, hr, hN, hsave⟩ := SaveNextBatch_on_provisioned d x c hprov
    obtain ⟨f1, h1⟩ :=
      read_after_write c0 s { s with NextBatch := some (setEntry es x c) } h0 hr
    rw [hsave]
    refine ⟨rfl, ?_, fun u => ?_, c0, s, h0, _, hc, hr, rfl, ?_, ?_, rfl⟩
    · exact (loads_of_same_record d _ c0 _ s h0 f1 hc rfl hr h1 y).2
    · exact (loads_of_same_record d _ c0 _ s h0 f1 hc rfl hr h1 u).1
    · show ((setEntry es x c).lookup x).getD _ = c
      rw [lookup_setEntry_self]
      rfl
    · show ((setEntry es x c).lookup y).getD _ = s.NextBatch.get y
      rw [lookup_setEntry_ne es x y c hxy, hN]
      rfl

/-- C6 on a store in use, whose record holds the filters "fy" of "@y:server" and "fx" of
"@x:server", an entry "Extra" that names no field, and for "@y:server" a next-batch token of
the two bytes `ff fe`: after `SaveFilterID("@x:server", "f1")` and after
`SaveNextBatch("@x:server", "s42")` the loads for "@y:server" still return "fy" and `ff fe`. -/
theorem C6_save_leaves_other_entries_witness :
    (provisioned usedStore = true ∧ ("@x:server" : GoString) ≠ "@y:server") ∧
    (LoadFilterID usedStore "@y:server" = (("fy" : GoString), none) ∧
      LoadNextBatch usedStore "@y:server" = (GoString.mk [0xff, 0xfe], none)) ∧
    (((SaveFilterID usedStore "@x:server" "f1").2 = .returned none ∧
      LoadFilterID (SaveFilterID usedStore "@x:server" "f1").1 "@y:server"
        = LoadFilterID usedStore "@y:server" ∧
      (∀ u, LoadNextBatch (SaveFilterID usedStore "@x:server" "f1").1 u
        = LoadNextBatch usedStore u) ∧
      ∃ content s h s1, usedStore.syncstore = some content ∧
        UnmarshalRead { content := content, offset := 0 } = some (s, h) ∧
        (SaveFilterID usedStore "@x:server" "f1").1.syncstore
          = some (MarshalWrite h s1).content ∧
        s1.Filters.get "@x:server" = "f1" ∧
        s1.Filters.get "@y:server" = s.Filters.get "@y:server" ∧
        s1.NextBatch = s.NextBatch) ∧
    ((SaveNextBatch usedStore "@x:server" "s42").2 = .returned none ∧
      LoadNextBatch (SaveNextBatch usedStore "@x:server" "s42").1 "@y:server"
        = LoadNextBatch usedStore "@y:server" ∧
      (∀ u, LoadFilterID (SaveNextBatch usedStore "@x:server" "s42").1 u
        = LoadFilterID usedStore u) ∧
      ∃ content s h s1, usedStore.syncstore = some content ∧
        UnmarshalRead { content := content, offset := 0 } = some (s, h) ∧
        (SaveNextBatch usedStore "@x:server" "s42").1.syncstore
          = some (MarshalWrite h s1).content ∧
        s1.NextBatch.get "@x:server" = "s42" ∧
        s1.NextBatch.get "@y:server" = s.NextBatch.get "@y:server" ∧
        s1.Filters = s.Filters)) :=
  ⟨⟨by decide, by decide⟩, ⟨by decide, by decide⟩,
    C6_save_leaves_other_entries usedStore "@x:server" "@y:server" "f1" "s42"
      (by decide) (by decide)⟩

/-! ## The channel mapper -/

theorem keyByValue_of_no_value (m : List (String × String)) (val : String)
    (h : ∀ p ∈ m, p.2 ≠ val) : keyByValue m val = "" := by
  induction m with
  | nil => rfl
  | cons p m ih =>
    obtain ⟨k, v⟩ := p
    have hv : v ≠ val := h (k, v) (List.mem_cons_self _ _)
    unfold keyByValue
    rw [if_neg hv]
    exact ih (fun q hq => h q (List.mem_cons_of_mem _ hq))

theorem keyByValue_mem_keys (m : List (String × String)) (val : String)
    (h : val ∈ m.map Prod.snd) : keyByValue m val ∈ m.map Prod.fst := by
  induction m with
  | nil => simp at h
  | cons p m ih =>
    obtain ⟨k, v⟩ := p
    unfold keyByValue
    by_cases hv : v = val
    · rw [if_pos hv]
      simp
    · rw [if_neg hv]
      have h1 : val ∈ m.map Prod.snd := by
        simp only [List.map_cons, List.mem_cons] at h
        rcases h with h | h
        · exact absurd h.symm hv
        · exact h
      simp only [List.map_cons, List.mem_cons]
      exact Or.inr (ih h1)

theorem lookup_keyByValue (m : List (String × String)) (r : String)
    (hkeys : (m.map Prod.fst).Nodup) (hr : r ∈ m.map Prod.snd) :
    m.lookup (keyByValue m r) = some r := by
  induction m with
  | nil => simp at hr
  | cons p m ih =>
    obtain ⟨k, v⟩ := p
    simp only [List.map_cons, List.nodup_cons] at hkeys
    unfold keyByValue
    by_cases hv : v = r
    · rw [if_pos hv, List.lookup_cons_self, hv]
    · rw [if_neg hv]
      have h1 : r ∈ m.map Prod.snd := by
        simp only [List.map_cons, List.mem_cons] at hr
        rcases hr with h | h
        · exact absurd h.symm hv
        · exact h
      have hne : keyByValue m r ≠ k := by
        intro he
        exact hkeys.1 (he ▸ keyByValue_mem_keys m r h1)
      rw [List.lookup_cons, beq_false_of_ne hne]
      exact ih hkeys.2 h1

/-- C4: in a channel mapping (distinct keys) where no two keys share a value, for a room ID
`r` that is the value of some pair, `m[keyByValue(m, r)]` is present and equals `r`. -/
theorem C4_forward_of_reverse (m : List (String × String)) (r : String)
    (hkeys : (m.map Prod.fst).Nodup)
    (_hvalues : ∀ p ∈ m, ∀ q ∈ m, p.2 = q.2 → p.1 = q.1)
    (hr : r ∈ m.map Prod.snd) :
    m.lookup (keyByValue m r) = some r ∧ index m (keyByValue m r) = r := by
  have h := lookup_keyByValue m r hkeys hr
  exact ⟨h, by unfold index; rw [h]; rfl⟩

/-- C4 on the mapping of "general" to "!room:server" and "random" to "!other:server". -/
theorem C4_forward_of_reverse_witness :
    (([("general", "!room:server"), ("random", "!other:server")].map Prod.fst).Nodup ∧
      (∀ p ∈ [("general", "!room:server"), ("random", "!other:server")],
        ∀ q ∈ [("general", "!room:server"), ("random", "!other:server")],
          p.2 = q.2 → p.1 = q.1) ∧
      "!other:server"
        ∈ [("general", "!room:server"), ("random", "!other:server")].map Prod.snd) ∧
    ([("general", "!room:server"), ("random", "!other:server")].lookup
        (keyByValue [("general", "!room:server"), ("random", "!other:server")] "!other:server")
        = some "!other:server" ∧
      index [("general", "!room:server"), ("random", "!other:server")]
        (keyByValue [("general", "!room:server"), ("random", "!other:server")] "!other:server")
        = "!other:server") :=
  ⟨⟨by decide, by decide, by decide⟩,
    C4_forward_of_reverse [("general", "!room:server"), ("random", "!other:server")]
      "!other:server" (by decide) (by decide) (by decide)⟩

/-! ## The handlers -/

/-- C2 as stated fails: with the mapping of "general" to "!room:server", a message from
"@alice:server" in the unmapped room "!elsewhere:server" makes one protocol-B send call. -/
theorem C2_unmapped_room_still_sends :
    (textEvent "@alice:server" "!elsewhere:server" "hi" "").Sender
        ≠ (sampleState okMautrix none).S.UserID ∧
    (∀ p ∈ (sampleState okMautrix none).S.Channels,
        p.2 ≠ (textEvent "@alice:server" "!elsewhere:server" "hi" "").RoomID) ∧
    calls (matrixMessage (sampleState okMautrix none)
        (textEvent "@alice:server" "!elsewhere:server" "hi" ""))
      = [.ChannelMessageSend "" "`@alice:server` hi"] ∧
    calls (matrixMessage (sampleState okMautrix none)
        (textEvent "@alice:server" "!elsewhere:server" "hi" "")) ≠ [] := by
  decide

/-- C2 amended: for a message whose sender is not the bridge's own protocol-A identity and
whose room ID is the value of no pair of the mapping, `keyByValue` gives the empty string and
`matrixMessage` makes exactly one client call, `ChannelMessageSend` to the empty channel ID
with the text `renderDiscord(event)`. -/
theorem C2_unmapped_room_sends_to_empty_channel (state : State) (e : Event)
    (hsender : e.Sender ≠ state.S.UserID)
    (hroom : ∀ p ∈ state.S.Channels, p.2 ≠ e.RoomID) :
    keyByValue state.S.Channels e.RoomID = "" ∧
    calls (matrixMessage state e) = [.ChannelMessageSend "" (renderDiscord e)] := by
  have hk := keyByValue_of_no_value state.S.Channels e.RoomID hroom
  refine ⟨hk, ?_⟩
  unfold matrixMessage
  simp only [if_neg hsender, hk]
  cases state.D.ChannelMessageSend "" (renderDiscord e) <;> rfl

/-- C2 amended, on a message from "@bob:server" in the unmapped room "!lobby:server" when the
protocol-B send fails. -/
theorem C2_unmapped_room_sends_to_empty_channel_witness :
    ((textEvent "@bob:server" "!lobby:server" "hey" "").Sender
        ≠ (sampleState okMautrix (some "404")).S.UserID ∧
      ∀ p ∈ (sampleState okMautrix (some "404")).S.Channels,
        p.2 ≠ (textEvent "@bob:server" "!lobby:server" "hey" "").RoomID) ∧
    (keyByValue (sampleState okMautrix (some "404")).S.Channels
        (textEvent "@bob:server" "!lobby:server" "hey" "").RoomID = "" ∧
      calls (matrixMessage (sampleState okMautrix (some "404"))
          (textEvent "@bob:server" "!lobby:server" "hey" ""))
        = [.ChannelMessageSend ""
            (renderDiscord (textEvent "@bob:server" "!lobby:server" "hey" ""))]) :=
  ⟨⟨by decide, by decide⟩,
    C2_unmapped_room_sends_to_empty_channel (sampleState okMautrix (some "404"))
      (textEvent "@bob:server" "!lobby:server" "hey" "") (by decide) (by decide)⟩

/-- C3: a message event whose sender equals the configured bridge user ID makes
`matrixMessage` do nothing, and a message-create event whose author ID equals the session's
own user ID makes `discordMessage` do nothing: no call, whatever the mapping, the clients and
the rest of the event are. -/
theorem C3_echo_suppression (RenderMarkdown : String → Bool → Bool → MessageEventContent)
    (state : State) (e : Event) (m : MessageCreate) :
    (e.Sender = state.S.UserID → matrixMessage state e = []) ∧
    (m.Author.ID = state.D.State.User.ID → discordMessage RenderMarkdown state m = []) := by
  constructor
  · intro h
    unfold matrixMessage
    rw [if_pos h]
  · intro h
    unfold discordMessage
    rw [if_pos h]

/-- C3 on the bridge "@bridge:server" with protocol-B user "1001": its own message in a mapped
room and its own message in a mapped channel, with a link and an attachment. -/
theorem C3_echo_suppression_witness :
    ((textEvent "@bridge:server" "!room:server" "`bob` hello" "mxc://server/abc").Sender
        = (sampleState okMautrix none).S.UserID ∧
      matrixMessage (sampleState okMautrix none)
        (textEvent "@bridge:server" "!room:server" "`bob` hello" "mxc://server/abc") = []) ∧
    ((MessageCreate.mk "general" "`@alice:server` hi" (User.mk "1001" "bridge")
          [MessageAttachment.mk "http://x/y"]).Author.ID
        = (sampleState okMautrix none).D.State.User.ID ∧
      discordMessage plainBody (sampleState okMautrix none)
        (MessageCreate.mk "general" "`@alice:server` hi" (User.mk "1001" "bridge")
          [MessageAttachment.mk "http://x/y"]) = []) :=
  ⟨⟨by decide, (C3_echo_suppression plainBody (sampleState okMautrix none)
      (textEvent "@bridge:server" "!room:server" "`bob` hello" "mxc://server/abc")
      (MessageCreate.mk "general" "`@alice:server` hi" (User.mk "1001" "bridge")
        [MessageAttachment.mk "http://x/y"])).1 (by decide)⟩,
    ⟨by decide, (C3_echo_suppression plainBody (sampleState okMautrix none)
      (textEvent "@bridge:server" "!room:server" "`bob` hello" "mxc://server/abc")
      (MessageCreate.mk "general" "`@alice:server` hi" (User.mk "1001" "bridge")
        [MessageAttachment.mk "http://x/y"])).2 (by decide)⟩⟩

/-- C7: for a message-create event whose author ID differs from the session's own user ID,
whether the send succeeds or fails, `discordMessage` makes exactly one client call,
`SendMessageEvent` of type message to the room `m[channelID]` with the content
`renderMatrix(event)`; and the room is the empty string when the channel has no entry. -/
theorem C7_discord_message_routing
    (RenderMarkdown : String → Bool → Bool → MessageEventContent) (state : State)
    (e : MessageCreate) (hauthor : e.Author.ID ≠ state.D.State.User.ID) :
    calls (discordMessage RenderMarkdown state e)
      = [.SendMessageEvent (index state.S.Channels e.ChannelID) EventMessage
          (renderMatrix RenderMarkdown e)] ∧
    (state.S.Channels.lookup e.ChannelID = none → index state.S.Channels e.ChannelID = "") := by
  refine ⟨?_, fun h => by unfold index; rw [h]; rfl⟩
  unfold discordMessage
  simp only [if_neg hauthor]
  cases state.M.SendMessageEvent (index state.S.Channels e.ChannelID) EventMessage
    (renderMatrix RenderMarkdown e) <;> rfl

/-- C7 on the mapping of "general" to "!room:server": the message "hello" from "bob" in
channel "general" gives one send to "!room:server", built from the text of "bob" in backticks
followed by " hello"; here the send fails and no other call follows. -/
theorem C7_discord_message_routing_witness :
    (MessageCreate.mk "general" "hello" (User.mk "7" "bob") []).Author.ID
      ≠ (sampleState failingMautrix none).D.State.User.ID ∧
    (calls (discordMessage plainBody (sampleState failingMautrix none)
        (MessageCreate.mk "general" "hello" (User.mk "7" "bob") []))
      = [.SendMessageEvent "!room:server" "m.room.message" (plainBody "`bob` hello" true false)] ∧
    ((sampleState failingMautrix none).S.Channels.lookup
        (MessageCreate.mk "general" "hello" (User.mk "7" "bob") []).ChannelID = none →
      index (sampleState failingMautrix none).S.Channels
        (MessageCreate.mk "general" "hello" (User.mk "7" "bob") []).ChannelID = "")) :=
  ⟨by decide, C7_discord_message_routing plainBody (sampleState failingMautrix none)
    (MessageCreate.mk "general" "hello" (User.mk "7" "bob") []) (by decide)⟩

/-- C9: for every membership-change event and every client, the client calls of
`matrixInvite` are one `JoinRoomByID` for the event's own room ID when the membership is
"invite", whether the join succeeds or fails, and none at all when the membership is anything
else. -/
theorem C9_invite_handling (state : State) (e : Event) :
    calls (matrixInvite state e)
      = (if e.Content.AsMember.Membership = "invite" then [.JoinRoomByID e.RoomID] else []) := by
  unfold matrixInvite MembershipInvite
  by_cases h : e.Content.AsMember.Membership = "invite"
  · simp only [h, ne_eq, not_true_eq_false, if_false, if_true]
    cases state.M.JoinRoomByID e.RoomID <;> rfl
  · simp only [h, ne_eq, not_false_eq_true, if_true, if_false]
    rfl

/-! ## The translators -/

theorem count_of_no_line_break (s : String) (h : hasLineBreak s = false) :
    s.data.count '\n' = 0 := by
  unfold hasLineBreak at h
  exact List.count_eq_zero.2 (of_decide_eq_false h)

theorem lineCount_append (s t : String) :
    lineCount (s ++ t) = s.data.count '\n' + t.data.count '\n' + 1 := by
  unfold lineCount
  rw [String.data_append, List.count_append]

theorem count_prefixed (a x : String) (ha : hasLineBreak a = false)
    (hx : hasLineBreak x = false) : ("`" ++ a ++ "` " ++ x).data.count '\n' = 0 := by
  simp only [String.data_append, List.count_append, count_of_no_line_break a ha,
    count_of_no_line_break x hx]
  decide

theorem count_attachment_line (a x : String) (ha : hasLineBreak a = false)
    (hx : hasLineBreak x = false) : ("\n`" ++ a ++ "` " ++ x).data.count '\n' = 1 := by
  simp only [String.data_append, List.count_append, count_of_no_line_break a ha,
    count_of_no_line_break x hx]
  decide

theorem count_attachmentLines (a : String) (ha : hasLineBreak a = false) :
    ∀ atts : List MessageAttachment, (∀ x ∈ atts, hasLineBreak x.URL = false) →
      (attachmentLines a atts).data.count '\n' = atts.length := by
  intro atts
  induction atts with
  | nil => intro _; rfl
  | cons x rest ih =>
    intro h
    unfold attachmentLines
    rw [String.data_append, List.count_append,
      count_attachment_line a x.URL ha (h x (List.mem_cons_self _ _)),
      ih (fun y hy => h y (List.mem_cons_of_mem _ hy)), List.length_cons]
    omega

theorem foldl_attachments (a : String) (atts : List MessageAttachment) :
    ∀ init : String,
      atts.foldl (fun body attachment => body ++ ("\n`" ++ a ++ "` " ++ attachment.URL)) init
        = init ++ attachmentLines a atts := by
  induction atts with
  | nil => intro init; simp [attachmentLines]
  | cons x rest ih =>
    intro init
    rw [List.foldl_cons, ih, String.append_assoc]
    rfl

/-- C5, on the code: for the sender "@alice:server", the body "pic.png" and the link
"mxc://server/abc", `renderDiscord` returns the prefixed link directly followed by the
prefixed body, one line with no line break between the two, and not the two lines of the
claim. -/
theorem C5_link_and_body_on_one_line :
    renderDiscord (textEvent "@alice:server" "!room:server" "pic.png" "mxc://server/abc")
      = "`@alice:server` mxc://server/abc`@alice:server` pic.png" ∧
    renderDiscord (textEvent "@alice:server" "!room:server" "pic.png" "mxc://server/abc")
      ≠ "`@alice:server` mxc://server/abc\n`@alice:server` pic.png" ∧
    lineCount (renderDiscord
      (textEvent "@alice:server" "!room:server" "pic.png" "mxc://server/abc")) = 1 := by
  decide

/-- C8 as stated fails: with the author username "bo", line break, "b", the content "yo" and
the attachment "http://x/y" hold no line break, yet the assembled text has four lines, not
two. -/
theorem C8_username_with_line_break :
    hasLineBreak (MessageCreate.mk "general" "yo" (User.mk "7" "bo\nb")
      [MessageAttachment.mk "http://x/y"]).Content = false ∧
    (∀ x ∈ (MessageCreate.mk "general" "yo" (User.mk "7" "bo\nb")
      [MessageAttachment.mk "http://x/y"]).Attachments, hasLineBreak x.URL = false) ∧
    renderMatrixBody (MessageCreate.mk "general" "yo" (User.mk "7" "bo\nb")
      [MessageAttachment.mk "http://x/y"]) = "`bo\nb` yo\n`bo\nb` http://x/y" ∧
    lineCount (renderMatrixBody (MessageCreate.mk "general" "yo" (User.mk "7" "bo\nb")
      [MessageAttachment.mk "http://x/y"])) = 4 ∧
    lineCount (renderMatrixBody (MessageCreate.mk "general" "yo" (User.mk "7" "bo\nb")
      [MessageAttachment.mk "http://x/y"]))
      ≠ (MessageCreate.mk "general" "yo" (User.mk "7" "bo\nb")
          [MessageAttachment.mk "http://x/y"]).Attachments.length + 1 := by
  decide

/-- C8 amended: for every message-create event with author username `a`, content `c` and
attachments `u1 .. un`, `renderMatrix` calls the formatter with markdown allowed, raw HTML not
allowed, on the text made of `a` in backticks, a space and `c`, followed for each attachment
in order by a line break, `a` in backticks, a space and the attachment URL; when `a`, `c` and
the URLs hold no line break this text has exactly `n + 1` lines. -/
theorem C8_render_matrix_text (RenderMarkdown : String → Bool → Bool → MessageEventContent)
    (e : MessageCreate) :
    renderMatrix RenderMarkdown e
      = RenderMarkdown ("`" ++ e.Author.Username ++ "` " ++ e.Content
          ++ attachmentLines e.Author.Username e.Attachments) true false ∧
    (hasLineBreak e.Author.Username = false → hasLineBreak e.Content = false →
      (∀ x ∈ e.Attachments, hasLineBreak x.URL = false) →
      lineCount (renderMatrixBody e) = e.Attachments.length + 1) := by
  have hbody : renderMatrixBody e = "`" ++ e.Author.Username ++ "` " ++ e.Content
      ++ attachmentLines e.Author.Username e.Attachments := by
    unfold renderMatrixBody
    exact foldl_attachments _ _ _
  refine ⟨by unfold renderMatrix; rw [hbody], fun ha hc hu => ?_⟩
  rw [hbody, lineCount_append, count_prefixed _ _ ha hc, count_attachmentLines _ ha _ hu]
  omega

/-- C8 amended, on author "bob", content "yo", attachment "http://x/y": the text has the two
lines of "bob" in backticks followed by " yo" and by " http://x/y". -/
theorem C8_render_matrix_text_witness :
    (hasLineBreak "bob" = false ∧ hasLineBreak "yo" = false ∧
      ∀ x ∈ [MessageAttachment.mk "http://x/y"], hasLineBreak x.URL = false) ∧
    renderMatrix plainBody (MessageCreate.mk "general" "yo" (User.mk "7" "bob")
        [MessageAttachment.mk "http://x/y"])
      = plainBody "`bob` yo\n`bob` http://x/y" true false ∧
    lineCount (renderMatrixBody (MessageCreate.mk "general" "yo" (User.mk "7" "bob")
        [MessageAttachment.mk "http://x/y"])) = 2 :=
  ⟨⟨by decide, by decide, by decide⟩,
    (C8_render_matrix_text plainBody (MessageCreate.mk "general" "yo" (User.mk "7" "bob")
      [MessageAttachment.mk "http://x/y"])).1,
    (C8_render_matrix_text plainBody (MessageCreate.mk "general" "yo" (User.mk "7" "bob")
      [MessageAttachment.mk "http://x/y"])).2 (by decide) (by decide) (by decide)⟩

/-- C10 as stated fails: with the sender "@al", line break, "ice:server", an empty link and the
body "hi", which holds no line break, the text returned has two lines, not one. -/
theorem C10_sender_with_line_break :
    (ParseOrIgnore
      (textEvent "@al\nice:server" "!room:server" "hi" "").Content.AsMessage.URL).String = "" ∧
    hasLineBreak (textEvent "@al\nice:server" "!room:server" "hi" "").Content.AsMessage.Body
      = false ∧
    renderDiscord (textEvent "@al\nice:server" "!room:server" "hi" "")
      = "`@al\nice:server` hi" ∧
    lineCount (renderDiscord (textEvent "@al\nice:server" "!room:server" "hi" "")) = 2 ∧
    lineCount (renderDiscord (textEvent "@al\nice:server" "!room:server" "hi" "")) ≠ 1 := by
  decide

/-- C10 amended: for every event with sender `s` and body `b` whose link is empty or does not
parse (`ParseOrIgnore().String()` is empty), `renderDiscord` returns exactly `s` in backticks,
a space and `b`; this is a single line whenever `s` and `b` hold no line break. -/
theorem C10_render_discord_without_link (e : Event)
    (hurl : (ParseOrIgnore e.Content.AsMessage.URL).String = "") :
    renderDiscord e = "`" ++ e.Sender ++ "` " ++ e.Content.AsMessage.Body ∧
    (hasLineBreak e.Sender = false → hasLineBreak e.Content.AsMessage.Body = false →
      lineCount (renderDiscord e) = 1) := by
  have hbody : renderDiscord e = "`" ++ e.Sender ++ "` " ++ e.Content.AsMessage.Body := by
    unfold renderDiscord
    simp only [hurl, ne_eq, not_true_eq_false, if_false]
    exact String.empty_append _
  refine ⟨hbody, fun hs hb => ?_⟩
  rw [hbody]
  unfold lineCount
  rw [count_prefixed _ _ hs hb]

/-- C10 amended, on sender "alice", body "hi", empty link: the one line of "alice" in
backticks followed by " hi". -/
theorem C10_render_discord_without_link_witness :
    (ParseOrIgnore (textEvent "alice" "!room:server" "hi" "").Content.AsMessage.URL).String = "" ∧
    renderDiscord (textEvent "alice" "!room:server" "hi" "") = "`alice` hi" ∧
    (hasLineBreak "alice" = false → hasLineBreak "hi" = false →
      lineCount (renderDiscord (textEvent "alice" "!room:server" "hi" "")) = 1) :=
  ⟨by decide, C10_render_discord_without_link (textEvent "alice" "!room:server" "hi" "")
    (by decide)⟩

end Bridge
